import Mathlib

set_option maxHeartbeats 1000000

/-! Shallow embedding of the command-catalog builder of `astrbot_plugin_help`
(src/main.py).  Python strings are Lean `String`s (packed `List Char`);
Python `None`-able attributes are `Option`s; the host's plugin registry is a
list of `StarMetadata`; the global handler registry is modelled by its
`StarHandlerMetadata` elements (the source's `isinstance` check simply skips
anything else, so non-metadata registry items never contribute). -/

/-- Python `str.strip()` removes leading and trailing whitespace characters. -/
def pyIsSpace (c : Char) : Bool := c.isWhitespace

/-- Strip whitespace from both ends of a character list (Python `str.strip()`). -/
def stripList (l : List Char) : List Char :=
  ((l.dropWhile pyIsSpace).reverse.dropWhile pyIsSpace).reverse

/-- Python `s.strip()` on a Lean `String`. -/
def pyStrip (s : String) : String := String.mk (stripList s.data)

/-- Host permission tiers: `PermissionType.ADMIN` and everything else
(src: astrbot.core.star.filter.permission.PermissionType). -/
inductive PermissionType where
  | ADMIN
  | MEMBER
  deriving DecidableEq

/-- The filter objects a handler can carry, as the source distinguishes them
by `isinstance`: `CommandFilter(command_name)`, `CommandGroupFilter(group_name)`,
`PermissionTypeFilter(permission_type)`, and any other filter type. -/
inductive FilterEntry where
  | CommandFilter (command_name : String)
  | CommandGroupFilter (group_name : String)
  | PermissionTypeFilter (permission_type : PermissionType)
  | otherFilter
  deriving DecidableEq

/-- Handler metadata (src: StarHandlerMetadata): owning module path, optional
description, ordered filter sequence. -/
structure StarHandlerMetadata where
  handler_module_path : String
  desc : Option String
  event_filters : List FilterEntry
  deriving DecidableEq

/-- Plugin descriptor (src: the star metadata returned by
`context.get_all_stars()`): `star_cls_is_star` models
`isinstance(star.star_cls, Star)`; `display_name`/`module_path` are `none`
when the attribute is missing or `None`. -/
structure StarMetadata where
  name : String
  display_name : Option String
  module_path : Option String
  star_cls_is_star : Bool
  activated : Bool
  deriving DecidableEq

/-- One element of the configured `plugin_display_names` list: a string, or a
value of any other type (skipped by the source's `isinstance` check). -/
inductive ConfigValue where
  | strVal (s : String)
  | otherVal
  deriving DecidableEq

/-- The configured `plugin_display_names` value: a list, or any non-list value
(the source returns an empty mapping for the latter).  An absent or falsy
value becomes `[]` via `getattr(..., []) or []`, i.e. `listVal []`. -/
inductive DisplayNamesConfig where
  | listVal (items : List ConfigValue)
  | nonListVal
  deriving DecidableEq

/-- The plugin configuration: `none` for a flag means the attribute is absent,
so `getattr`'s default applies (`show_all_cmds` defaults to false,
`show_builtin_cmds` to true). -/
structure AstrBotConfig where
  show_all_cmds : Option Bool
  show_builtin_cmds : Option Bool
  plugin_display_names : DisplayNamesConfig
  deriving DecidableEq

/-- Scan the filters in order; the first `PermissionTypeFilter` decides
(src/main.py lines 39-48, the loop body of `_get_permission_level`). -/
def permissionFromFilters : List FilterEntry → String
  | [] => "everyone"
  | FilterEntry.PermissionTypeFilter pt :: _ =>
    if pt = PermissionType.ADMIN then "admin" else "member"
  | _ :: rest => permissionFromFilters rest

/-- Extract a handler's permission level: admin/member/everyone
(src/main.py `_get_permission_level`). -/
def _get_permission_level (handler : StarHandlerMetadata) : String :=
  permissionFromFilters handler.event_filters

/-- Decide, from the configuration, whether a command of the given permission
level is shown (src/main.py `_should_include_command`). -/
def _should_include_command (config : AstrBotConfig) (permission_level : String) : Bool :=
  if config.show_all_cmds.getD false then true
  else permission_level != "admin"

/-- Python dict insertion: overwrite the first binding of the key, else append
a new binding at the end (insertion order preserved). -/
def dictInsert : List (String × String) → String → String → List (String × String)
  | [], k, v => [(k, v)]
  | p :: rest, k, v => if p.1 == k then (k, v) :: rest else p :: dictInsert rest k v

/-- Python `dict.get`: value of the first binding of the key, if any. -/
def dictGet : List (String × String) → String → Option String
  | [], _ => none
  | p :: rest, k => if p.1 == k then some p.2 else dictGet rest k

/-- The part of Python `raw.split(":", 1)` before the first colon. -/
def splitColonLeft (l : List Char) : List Char := l.takeWhile (fun c => !(c == ':'))

/-- The part of Python `raw.split(":", 1)` after the first colon. -/
def splitColonRight (l : List Char) : List Char := (l.dropWhile (fun c => !(c == ':'))).tail

/-- Parse one configured `plugin:alias` entry: skip non-strings, strip, skip
when empty or without a colon, split at the first colon, strip both sides,
keep only when both are non-empty (src/main.py lines 65-75). -/
def parseDisplayNameItem (item : ConfigValue) : Option (String × String) :=
  match item with
  | ConfigValue.otherVal => none
  | ConfigValue.strVal s =>
    let raw := stripList s.data
    if raw.isEmpty then none
    else if !(raw.contains ':') then none
    else
      let plugin_name := stripList (splitColonLeft raw)
      let display_name := stripList (splitColonRight raw)
      if !plugin_name.isEmpty && !display_name.isEmpty then
        some (String.mk plugin_name, String.mk display_name)
      else none

/-- Parse the configured display-name overrides into a mapping
(src/main.py `_get_plugin_display_name_map`). -/
def _get_plugin_display_name_map (config : AstrBotConfig) : List (String × String) :=
  match config.plugin_display_names with
  | DisplayNamesConfig.nonListVal => []
  | DisplayNamesConfig.listVal items =>
    items.foldl
      (fun mapping item =>
        match parseDisplayNameItem item with
        | none => mapping
        | some (k, v) => dictInsert mapping k v)
      []

/-- One catalog row: `{command, desc, permission}` (src/main.py lines 171-177).
The dedupe key `(command_name, desc_text, permission_level)` is exactly this
triple, so the per-group dedupe set of the source coincides with the set of
entries already present in the group. -/
structure CommandEntry where
  command : String
  desc : String
  permission : String
  deriving DecidableEq

/-- The catalog: display name → ordered command entries, insertion order
preserved (Python `defaultdict(list)` converted to `dict` at the end; groups
are created only when the first entry is appended). -/
abbrev Catalog := List (String × List CommandEntry)

/-- Look up a group's entry list (empty when the group does not exist). -/
def catalogGet : Catalog → String → List CommandEntry
  | [], _ => []
  | p :: rest, g => if p.1 == g then p.2 else catalogGet rest g

/-- Append an entry to a group, creating the group at the end if new
(Python `plugin_commands[g].append(e)` on a `defaultdict(list)`). -/
def catalogAppend : Catalog → String → CommandEntry → Catalog
  | [], g, e => [(g, [e])]
  | p :: rest, g, e =>
    if p.1 == g then (p.1, p.2 ++ [e]) :: rest else p :: catalogAppend rest g e

/-- Scan a handler's filters for the first `CommandFilter` or
`CommandGroupFilter` and take its name (src/main.py lines 149-158); the
returned string may be empty, and `None` is modelled by `none`. -/
def find_command_name : List FilterEntry → Option String
  | [] => none
  | FilterEntry.CommandFilter n :: _ => some n
  | FilterEntry.CommandGroupFilter n :: _ => some n
  | _ :: rest => find_command_name rest

/-- Resolve the display name of a plugin: native display name (stripped) when
truthy, else the override mapping's entry, else the internal name
(src/main.py lines 103-109; Python `a or b or c` on strings). -/
def resolve_display_name (display_name_map : List (String × String))
    (star : StarMetadata) : String :=
  let native := pyStrip (star.display_name.getD "")
  if native == "" then
    let mapped := (dictGet display_name_map star.name).getD ""
    if mapped == "" then star.name else mapped
  else native

/-- Process one handler for the plugin under scan (src/main.py lines 142-177,
the inner loop body): skip on module-path mismatch, extract the command name
(`if command_name:` makes an empty name a skip), classify and filter by
permission, then dedupe within the display-name group and append. -/
def processHandler (config : AstrBotConfig) (plugin_displayname : String)
    (module_path : String) (st : Catalog) (handler : StarHandlerMetadata) : Catalog :=
  if handler.handler_module_path != module_path then st
  else
    match find_command_name handler.event_filters with
    | none => st
    | some command_name =>
      if command_name == "" then st
      else
        let permission_level := _get_permission_level handler
        if !(_should_include_command config permission_level) then st
        else
          let desc_text := pyStrip (handler.desc.getD "")
          let entry : CommandEntry := ⟨command_name, desc_text, permission_level⟩
          if entry ∈ catalogGet st plugin_displayname then st
          else catalogAppend st plugin_displayname entry

/-- Process one activated plugin (src/main.py lines 102-177, the outer loop
body): compute the display name, skip the fixed exclusion set, skip
`builtin_commands` when configured off, skip invalid metadata (empty name,
missing/empty module path — `getD ""` renders Python's falsy check on an
optional path — or a `star_cls` that is not a `Star`), then fold the handler
registry. -/
def processStar (config : AstrBotConfig) (display_name_map : List (String × String))
    (handlers : List StarHandlerMetadata) (st : Catalog) (star : StarMetadata) : Catalog :=
  let plugin_name := star.name
  let plugin_displayname := resolve_display_name display_name_map star
  let module_path := star.module_path.getD ""
  if plugin_name == "astrbot" || plugin_name == "astrbot_plugin_help"
      || plugin_name == "astrbot-reminder" then st
  else if plugin_name == "builtin_commands"
      && !(config.show_builtin_cmds.getD true) then st
  else if plugin_name == "" || module_path == "" || !star.star_cls_is_star then st
  else handlers.foldl (processHandler config plugin_displayname module_path) st

/-- Test whether a filter is a `PermissionTypeFilter` (used to state which
filter the permission scan stops at). -/
def isPermissionEntry : FilterEntry → Bool
  | FilterEntry.PermissionTypeFilter _ => true
  | _ => false

/-- Test whether a filter is a `CommandFilter` or `CommandGroupFilter` (used to
state which filter the command-name scan stops at). -/
def isCommandLikeEntry : FilterEntry → Bool
  | FilterEntry.CommandFilter _ => true
  | FilterEntry.CommandGroupFilter _ => true
  | _ => false

/-- Restatement of the claimed parse rule, following the claim's words rather
than the source: an entry is kept only if it is a string containing a `:`
separator whose key (substring before the first `:`) and value (substring
after it) are non-empty after trimming surrounding whitespace; there is no
pre-trim of the whole entry. -/
def parseDisplayNameItemSpec (item : ConfigValue) : Option (String × String) :=
  match item with
  | ConfigValue.otherVal => none
  | ConfigValue.strVal s =>
    if s.data.contains ':' then
      let key := stripList (splitColonLeft s.data)
      let value := stripList (splitColonRight s.data)
      if !key.isEmpty && !value.isEmpty then
        some (String.mk key, String.mk value)
      else none
    else none

/-- Restatement of the claimed mapping, following the claim's words: scan the
configured list in order, keep the entries `parseDisplayNameItemSpec` accepts,
later duplicate keys overwrite earlier ones, and any non-list configuration
value yields an empty mapping. -/
def displayNameMapSpec (v : DisplayNamesConfig) : List (String × String) :=
  match v with
  | DisplayNamesConfig.nonListVal => []
  | DisplayNamesConfig.listVal items =>
    items.foldl
      (fun mapping item =>
        match parseDisplayNameItemSpec item with
        | none => mapping
        | some (k, val) => dictInsert mapping k val)
      []

/-- First non-empty string in a list (empty when all are empty). -/
def firstNonEmpty : List String → String
  | [] => ""
  | s :: rest => if s == "" then firstNonEmpty rest else s

/-- Restatement of the claimed display-name priority, following the claim's
words: the first non-empty of native display name after trimming, the override
mapping's entry for the internal name, and the internal name itself. -/
def displayNameSpec (display_name_map : List (String × String))
    (star : StarMetadata) : String :=
  firstNonEmpty
    [pyStrip (star.display_name.getD ""),
     (dictGet display_name_map star.name).getD "",
     star.name]

/-- Result of `context.get_all_stars()`: the descriptor list, or a raised
exception (caught by the source's `try`/`except`). -/
inductive FetchResult where
  | ok (stars : List StarMetadata)
  | err
  deriving DecidableEq

/-- Build the catalog (src/main.py `get_all_commands`): on fetch failure
return empty; filter to activated plugins, return empty when none; otherwise
fold `processStar` over the activated descriptors in host order. -/
def get_all_commands (config : AstrBotConfig) (fetch : FetchResult)
    (handlers : List StarHandlerMetadata) : Catalog :=
  match fetch with
  | FetchResult.err => []
  | FetchResult.ok all_stars_metadata =>
    let activated := all_stars_metadata.filter (fun star => star.activated)
    if activated.isEmpty then []
    else
      let display_name_map := _get_plugin_display_name_map config
      activated.foldl (processStar config display_name_map handlers) []

/-! Generic fold helpers. -/

theorem foldl_ext {α β : Type} (f g : α → β → α) (hfg : ∀ st x, f st x = g st x) :
    ∀ (l : List β) (st : α), l.foldl f st = l.foldl g st
  | [], _ => rfl
  | x :: rest, st => by rw [List.foldl_cons, List.foldl_cons, hfg, foldl_ext f g hfg rest]

theorem foldl_preserve {α β : Type} {P : α → Prop} {f : α → β → α}
    (hf : ∀ st x, P st → P (f st x)) :
    ∀ (l : List β) (st : α), P st → P (l.foldl f st)
  | [], _, h => h
  | x :: rest, st, h => foldl_preserve hf rest (f st x) (hf st x h)

theorem foldl_filter_of_id {α β : Type} (f : α → β → α) (q : β → Bool)
    (hid : ∀ st x, q x = false → f st x = st) :
    ∀ (l : List β) (st : α), l.foldl f st = (l.filter q).foldl f st
  | [], _ => rfl
  | x :: rest, st => by
    cases hq : q x with
    | true => rw [List.foldl_cons, List.filter_cons_of_pos hq, List.foldl_cons,
        foldl_filter_of_id f q hid rest]
    | false => rw [List.foldl_cons, List.filter_cons_of_neg (by simp [hq]), hid st x hq,
        foldl_filter_of_id f q hid rest]

theorem foldl_remove_id {α β : Type} (f : α → β → α) (x : β)
    (hx : ∀ st, f st x = st) (l1 l2 : List β) (st : α) :
    (l1 ++ x :: l2).foldl f st = (l1 ++ l2).foldl f st := by
  rw [List.foldl_append, List.foldl_append, List.foldl_cons, hx]

/-! Character-list lemmas about whitespace stripping and colon splitting,
used to settle the display-name parse claims. -/

theorem pyIsSpace_colon_false {c : Char} (h : pyIsSpace c = true) : (c == ':') = false := by
  cases hc : c == ':' with
  | false => rfl
  | true =>
    have hc' : c = ':' := eq_of_beq hc
    subst hc'
    exact absurd h (by decide)

theorem twAppendAll {α : Type} (p : α → Bool) (l1 l2 : List α)
    (h : ∀ c ∈ l1, p c = true) : (l1 ++ l2).takeWhile p = l1 ++ l2.takeWhile p := by
  induction l1 with
  | nil => simp
  | cons c rest ih =>
    have hc : p c = true := h c (List.mem_cons_self c rest)
    simp only [List.cons_append, List.takeWhile_cons, hc, if_true]
    rw [ih (fun x hx => h x (List.mem_cons_of_mem c hx))]

theorem twAppendStop {α : Type} (p : α → Bool) (l1 l2 : List α)
    (h : ∃ c ∈ l1, p c = false) : (l1 ++ l2).takeWhile p = l1.takeWhile p := by
  induction l1 with
  | nil => obtain ⟨c, hc, _⟩ := h; exact absurd hc (List.not_mem_nil c)
  | cons c rest ih =>
    cases hc : p c with
    | false => simp [List.takeWhile_cons, hc]
    | true =>
      obtain ⟨x, hx, hpx⟩ := h
      rcases List.mem_cons.mp hx with rfl | hx'
      · rw [hc] at hpx; exact absurd hpx (by simp)
      · simp only [List.cons_append, List.takeWhile_cons, hc, if_true]
        rw [ih ⟨x, hx', hpx⟩]

theorem dwAppendAll {α : Type} (p : α → Bool) (l1 l2 : List α)
    (h : ∀ c ∈ l1, p c = true) : (l1 ++ l2).dropWhile p = l2.dropWhile p := by
  induction l1 with
  | nil => simp
  | cons c rest ih =>
    have hc : p c = true := h c (List.mem_cons_self c rest)
    simp only [List.cons_append, List.dropWhile_cons, hc, if_true]
    exact ih (fun x hx => h x (List.mem_cons_of_mem c hx))

theorem dwAppendStop {α : Type} (p : α → Bool) (l1 l2 : List α)
    (h : ∃ c ∈ l1, p c = false) : (l1 ++ l2).dropWhile p = l1.dropWhile p ++ l2 := by
  induction l1 with
  | nil => obtain ⟨c, hc, _⟩ := h; exact absurd hc (List.not_mem_nil c)
  | cons c rest ih =>
    cases hc : p c with
    | false => simp [List.dropWhile_cons, hc]
    | true =>
      obtain ⟨x, hx, hpx⟩ := h
      rcases List.mem_cons.mp hx with rfl | hx'
      · rw [hc] at hpx; exact absurd hpx (by simp)
      · simp only [List.cons_append, List.dropWhile_cons, hc, if_true]
        exact ih ⟨x, hx', hpx⟩

theorem mem_colon_dropWhile_ws (l : List Char) :
    ':' ∈ l.dropWhile pyIsSpace ↔ ':' ∈ l := by
  induction l with
  | nil => simp
  | cons c rest ih =>
    cases hws : pyIsSpace c with
    | false => simp [List.dropWhile_cons, hws]
    | true =>
      have hc : ¬(':' = c) := by
        intro h
        rw [← h] at hws
        exact absurd hws (by decide)
      simp [List.dropWhile_cons, hws, ih, List.mem_cons, hc]

theorem dropWhile_colon_dropWhile_ws (l : List Char) :
    (l.dropWhile pyIsSpace).dropWhile (fun c => !(c == ':'))
      = l.dropWhile (fun c => !(c == ':')) := by
  induction l with
  | nil => rfl
  | cons c rest ih =>
    cases hws : pyIsSpace c with
    | false => simp [List.dropWhile_cons, hws]
    | true =>
      have hc : (c == ':') = false := pyIsSpace_colon_false hws
      simp [List.dropWhile_cons, hws, hc, ih]

theorem takeWhile_colon_dropWhile_ws (l : List Char) :
    (l.dropWhile pyIsSpace).takeWhile (fun c => !(c == ':'))
      = (l.takeWhile (fun c => !(c == ':'))).dropWhile pyIsSpace := by
  induction l with
  | nil => rfl
  | cons c rest ih =>
    cases hws : pyIsSpace c with
    | false =>
      cases hp : (c == ':') with
      | false => simp [List.dropWhile_cons, List.takeWhile_cons, hws, hp]
      | true => simp [List.dropWhile_cons, List.takeWhile_cons, hws, hp]
    | true =>
      have hp : (c == ':') = false := pyIsSpace_colon_false hws
      simp [List.dropWhile_cons, List.takeWhile_cons, hws, hp, ih]

theorem stripList_ws_append (w x : List Char) (hw : ∀ c ∈ w, pyIsSpace c = true) :
    stripList (w ++ x) = stripList x := by
  unfold stripList
  rw [dwAppendAll pyIsSpace w x hw]

theorem stripList_decomp (l : List Char) :
    ∃ w, (∀ c ∈ w, pyIsSpace c = true) ∧ l.dropWhile pyIsSpace = stripList l ++ w := by
  refine ⟨((l.dropWhile pyIsSpace).reverse.takeWhile pyIsSpace).reverse, ?_, ?_⟩
  · intro c hc
    exact List.mem_takeWhile_imp (List.mem_reverse.mp hc)
  · conv_lhs => rw [← List.reverse_reverse (l.dropWhile pyIsSpace),
      ← List.takeWhile_append_dropWhile (p := pyIsSpace) (l := (l.dropWhile pyIsSpace).reverse)]
    rw [List.reverse_append]
    rfl

theorem stripList_append_ws (x w : List Char) (hw : ∀ c ∈ w, pyIsSpace c = true) :
    stripList (x ++ w) = stripList x := by
  by_cases hx : ∀ c ∈ x, pyIsSpace c = true
  · have h1 : (x ++ w).dropWhile pyIsSpace = [] := by
      rw [List.dropWhile_eq_nil_iff]
      intro c hc
      rcases List.mem_append.mp hc with h | h
      · exact hx c h
      · exact hw c h
    have h2 : x.dropWhile pyIsSpace = [] := List.dropWhile_eq_nil_iff.mpr hx
    unfold stripList
    rw [h1, h2]
  · have hex : ∃ c ∈ x, pyIsSpace c = false := by
      push_neg at hx
      obtain ⟨c, hc, hpc⟩ := hx
      exact ⟨c, hc, Bool.not_eq_true _ ▸ Bool.eq_false_iff.mpr hpc⟩
    unfold stripList
    rw [dwAppendStop pyIsSpace x w hex, List.reverse_append,
      dwAppendAll pyIsSpace w.reverse (x.dropWhile pyIsSpace).reverse
        (fun c hc => hw c (List.mem_reverse.mp hc))]

theorem mem_colon_stripList (l : List Char) : ':' ∈ stripList l ↔ ':' ∈ l := by
  unfold stripList
  rw [List.mem_reverse, mem_colon_dropWhile_ws, List.mem_reverse, mem_colon_dropWhile_ws]

theorem stripList_not_nil_of_colon {l : List Char} (h : ':' ∈ stripList l) :
    (stripList l).isEmpty = false := by
  cases hs : stripList l with
  | nil => rw [hs] at h; exact absurd h (List.not_mem_nil ':')
  | cons a t => rfl

theorem splitColonLeft_strip (l : List Char) (hc : ':' ∈ l) :
    stripList (splitColonLeft (stripList l)) = stripList (splitColonLeft l) := by
  obtain ⟨w, hw, hd⟩ := stripList_decomp l
  have hcr : ':' ∈ stripList l := (mem_colon_stripList l).mpr hc
  have hex : ∃ c ∈ stripList l, (fun c => !(c == ':')) c = false :=
    ⟨':', hcr, by simp⟩
  unfold splitColonLeft
  conv_rhs => rw [← List.takeWhile_append_dropWhile (p := pyIsSpace) (l := l)]
  rw [twAppendAll (fun c => !(c == ':')) (l.takeWhile pyIsSpace) (l.dropWhile pyIsSpace)
      (fun c hcm => by
        have h := pyIsSpace_colon_false (List.mem_takeWhile_imp hcm)
        simp [h]),
    stripList_ws_append (l.takeWhile pyIsSpace) _
      (fun c hcm => List.mem_takeWhile_imp hcm),
    hd, twAppendStop (fun c => !(c == ':')) (stripList l) w hex]

theorem tail_append_of_ne_nil {α : Type} (x w : List α) (hx : x ≠ []) :
    (x ++ w).tail = x.tail ++ w := by
  cases x with
  | nil => exact absurd rfl hx
  | cons a t => rfl

theorem splitColonRight_strip (l : List Char) (hc : ':' ∈ l) :
    stripList (splitColonRight (stripList l)) = stripList (splitColonRight l) := by
  obtain ⟨w, hw, hd⟩ := stripList_decomp l
  have hcr : ':' ∈ stripList l := (mem_colon_stripList l).mpr hc
  have hex : ∃ c ∈ stripList l, (fun c => !(c == ':')) c = false :=
    ⟨':', hcr, by simp⟩
  have hnn : (stripList l).dropWhile (fun c => !(c == ':')) ≠ [] := by
    intro hnil
    have := List.dropWhile_eq_nil_iff.mp hnil ':' hcr
    simp at this
  unfold splitColonRight
  rw [← dropWhile_colon_dropWhile_ws l, hd,
    dwAppendStop (fun c => !(c == ':')) (stripList l) w hex,
    tail_append_of_ne_nil _ w hnn,
    stripList_append_ws _ w hw]

theorem parse_item_eq (item : ConfigValue) :
    parseDisplayNameItem item = parseDisplayNameItemSpec item := by
  cases item with
  | otherVal => rfl
  | strVal s =>
    by_cases hc : ':' ∈ s.data
    · have hcr : ':' ∈ stripList s.data := (mem_colon_stripList _).mpr hc
      have hne : (stripList s.data).isEmpty = false := stripList_not_nil_of_colon hcr
      have hcont : (stripList s.data).contains ':' = true := List.elem_iff.mpr hcr
      have hcont2 : s.data.contains ':' = true := List.elem_iff.mpr hc
      simp only [parseDisplayNameItem, parseDisplayNameItemSpec, hne, hcont, hcont2,
        Bool.not_true, Bool.false_eq_true, if_false, if_true]
      rw [splitColonLeft_strip _ hc, splitColonRight_strip _ hc]
    · have hcr : ':' ∉ stripList s.data := fun h => hc ((mem_colon_stripList _).mp h)
      have hcont : (stripList s.data).contains ':' = false := by
        cases h : (stripList s.data).contains ':' with
        | false => rfl
        | true => exact absurd (List.elem_iff.mp h) hcr
      have hcont2 : s.data.contains ':' = false := by
        cases h : s.data.contains ':' with
        | false => rfl
        | true => exact absurd (List.elem_iff.mp h) hc
      simp only [parseDisplayNameItem, parseDisplayNameItemSpec, hcont, hcont2,
        Bool.not_false, if_true, Bool.false_eq_true, if_false]
      cases (stripList s.data).isEmpty <;> simp

theorem permissionFromFilters_skip (f : FilterEntry) (rest : List FilterEntry)
    (h : isPermissionEntry f = false) :
    permissionFromFilters (f :: rest) = permissionFromFilters rest := by
  cases f with
  | CommandFilter n => rfl
  | CommandGroupFilter n => rfl
  | PermissionTypeFilter pt => simp [isPermissionEntry] at h
  | otherFilter => rfl

/-- C4: `_get_plugin_display_name_map` returns exactly the mapping described by
the claim: scan the configured list in order, keep only string entries with a
`:` separator whose key (before the first `:`) and value (after it) are
non-empty after trimming, later duplicate keys overwriting earlier ones; any
non-list configuration yields an empty mapping, malformed entries are
silently skipped. -/
theorem c4_display_name_map_refines_spec (config : AstrBotConfig) :
    _get_plugin_display_name_map config = displayNameMapSpec config.plugin_display_names := by
  unfold _get_plugin_display_name_map displayNameMapSpec
  cases config.plugin_display_names with
  | nonListVal => rfl
  | listVal items =>
    exact foldl_ext _ _ (fun mapping item => by rw [parse_item_eq]) items []

/-- C5: `_get_permission_level` returns "admin" when the first
`PermissionTypeFilter` in the sequence has tier ADMIN, "member" when it has
any other tier, and "everyone" when the sequence holds no
`PermissionTypeFilter`; filters after the first `PermissionTypeFilter` (the
arbitrary `post`) have no effect. -/
theorem c5_permission_level_first_filter :
    (∀ (mp : String) (d : Option String) (pre post : List FilterEntry) (pt : PermissionType),
      (∀ f ∈ pre, isPermissionEntry f = false) →
      _get_permission_level ⟨mp, d, pre ++ FilterEntry.PermissionTypeFilter pt :: post⟩ =
        (if pt = PermissionType.ADMIN then "admin" else "member"))
    ∧ (∀ (mp : String) (d : Option String) (fs : List FilterEntry),
      (∀ f ∈ fs, isPermissionEntry f = false) →
      _get_permission_level ⟨mp, d, fs⟩ = "everyone") := by
  constructor
  · intro mp d pre post pt hpre
    unfold _get_permission_level
    induction pre with
    | nil => rfl
    | cons f rest ih =>
      rw [List.cons_append,
        permissionFromFilters_skip f _ (hpre f (List.mem_cons_self f rest))]
      exact ih (fun x hx => hpre x (List.mem_cons_of_mem f hx))
  · intro mp d fs hfs
    unfold _get_permission_level
    induction fs with
    | nil => rfl
    | cons f rest ih =>
      rw [permissionFromFilters_skip f _ (hfs f (List.mem_cons_self f rest))]
      exact ih (fun x hx => hfs x (List.mem_cons_of_mem f hx))

/-- Witness for C5: a handler whose first `PermissionTypeFilter` is ADMIN and
whose later MEMBER filter is ignored classifies as "admin". -/
theorem c5_permission_level_first_filter_witness :
    _get_permission_level ⟨"mod.path", none,
      [FilterEntry.CommandFilter "cmd",
       FilterEntry.PermissionTypeFilter PermissionType.ADMIN,
       FilterEntry.PermissionTypeFilter PermissionType.MEMBER]⟩ = "admin" := by
  have h := c5_permission_level_first_filter.1 "mod.path" none
    [FilterEntry.CommandFilter "cmd"]
    [FilterEntry.PermissionTypeFilter PermissionType.MEMBER]
    PermissionType.ADMIN (by decide)
  simpa using h

/-- C7: a plugin's catalog group key is the first non-empty of native display
name (trimmed), the configured override for its internal name, and the
internal name, in that order; and with config `["foo:Foo Tools"]` a plugin
named "foo" without native display name lands under group key "Foo Tools". -/
theorem c7_display_name_priority :
    (∀ (display_name_map : List (String × String)) (star : StarMetadata),
      resolve_display_name display_name_map star = displayNameSpec display_name_map star)
    ∧ get_all_commands ⟨none, none, DisplayNamesConfig.listVal [ConfigValue.strVal "foo:Foo Tools"]⟩
        (FetchResult.ok [⟨"foo", none, some "modpath.foo", true, true⟩])
        [⟨"modpath.foo", some "desc", [FilterEntry.CommandFilter "today"]⟩]
        = [("Foo Tools", [⟨"today", "desc", "everyone"⟩])] := by
  constructor
  · intro display_name_map star
    simp only [resolve_display_name, displayNameSpec, firstNonEmpty]
    split_ifs with h1 h2 h3
    · exact eq_of_beq h3
    · rfl
    · rfl
    · rfl
  · rfl

/-- C8: `get_all_commands` returns an empty catalog when fetching the plugin
descriptors fails, and an empty catalog when no activated plugin remains;
being a total function of its inputs, it raises nothing in any other case. -/
theorem c8_graceful_empty (config : AstrBotConfig) (handlers : List StarHandlerMetadata)
    (stars : List StarMetadata) :
    get_all_commands config FetchResult.err handlers = []
    ∧ ((stars.filter (fun star => star.activated)).isEmpty = true →
        get_all_commands config (FetchResult.ok stars) handlers = []) := by
  constructor
  · rfl
  · intro h
    unfold get_all_commands
    simp [h]

/-- Witness for C8: the failed fetch, and a host state whose only plugin is
deactivated, both yield the empty catalog. -/
theorem c8_graceful_empty_witness :
    get_all_commands ⟨none, none, DisplayNamesConfig.listVal []⟩ FetchResult.err [] = []
    ∧ get_all_commands ⟨none, none, DisplayNamesConfig.listVal []⟩
        (FetchResult.ok [⟨"weather", none, some "m", true, false⟩]) [] = [] :=
  ⟨(c8_graceful_empty ⟨none, none, DisplayNamesConfig.listVal []⟩ [] []).1,
   (c8_graceful_empty ⟨none, none, DisplayNamesConfig.listVal []⟩ []
      [⟨"weather", none, some "m", true, false⟩]).2 (by decide)⟩

/-! Catalog-state lemmas. -/

theorem entry_of_catalogAppend (st : Catalog) (g : String) (e : CommandEntry) :
    ∀ p ∈ catalogAppend st g e, ∀ x ∈ p.2, (∃ q ∈ st, x ∈ q.2) ∨ x = e := by
  induction st with
  | nil =>
    intro p hp x hx
    simp only [catalogAppend, List.mem_singleton] at hp
    subst hp
    simp only [List.mem_singleton] at hx
    exact Or.inr hx
  | cons hd rest ih =>
    intro p hp x hx
    by_cases hk : (hd.1 == g) = true
    · simp only [catalogAppend, hk, if_true, List.mem_cons] at hp
      rcases hp with rfl | hp
      · simp only [List.mem_append, List.mem_singleton] at hx
        rcases hx with hx | hx
        · exact Or.inl ⟨hd, List.mem_cons_self hd rest, hx⟩
        · exact Or.inr hx
      · exact Or.inl ⟨p, List.mem_cons_of_mem hd hp, hx⟩
    · simp only [catalogAppend, hk, Bool.false_eq_true, if_false, List.mem_cons] at hp
      rcases hp with rfl | hp
      · exact Or.inl ⟨p, List.mem_cons_self p rest, hx⟩
      · rcases ih p hp x hx with ⟨q, hq, hxq⟩ | hxe
        · exact Or.inl ⟨q, List.mem_cons_of_mem hd hq, hxq⟩
        · exact Or.inr hxe

theorem nodup_catalogAppend (st : Catalog) (g : String) (e : CommandEntry)
    (hst : ∀ p ∈ st, p.2.Nodup) (hmem : e ∉ catalogGet st g) :
    ∀ p ∈ catalogAppend st g e, p.2.Nodup := by
  induction st with
  | nil =>
    intro p hp
    simp only [catalogAppend, List.mem_singleton] at hp
    subst hp
    simp
  | cons hd rest ih =>
    intro p hp
    by_cases hk : (hd.1 == g) = true
    · have hget : catalogGet (hd :: rest) g = hd.2 := by simp [catalogGet, hk]
      rw [hget] at hmem
      simp only [catalogAppend, hk, if_true, List.mem_cons] at hp
      rcases hp with rfl | hp
      · exact List.Nodup.append (hst hd (List.mem_cons_self hd rest)) (by simp)
          (by intro a ha hb; simp only [List.mem_singleton] at hb; subst hb; exact hmem ha)
      · exact hst p (List.mem_cons_of_mem hd hp)
    · have hget : catalogGet (hd :: rest) g = catalogGet rest g := by
        simp [catalogGet, hk]
      rw [hget] at hmem
      simp only [catalogAppend, hk, Bool.false_eq_true, if_false, List.mem_cons] at hp
      rcases hp with rfl | hp
      · exact hst p (List.mem_cons_self p rest)
      · exact ih (fun q hq => hst q (List.mem_cons_of_mem hd hq)) hmem p hp

theorem mem_catalogGet_append_mono (st : Catalog) (g g' : String) (e x : CommandEntry)
    (hx : x ∈ catalogGet st g') : x ∈ catalogGet (catalogAppend st g e) g' := by
  induction st with
  | nil => simp [catalogGet] at hx
  | cons hd rest ih =>
    by_cases hk : (hd.1 == g) = true
    · by_cases hk' : (hd.1 == g') = true
      · simp only [catalogGet, hk', if_true] at hx
        simp only [catalogAppend, hk, if_true, catalogGet, hk']
        exact List.mem_append_left _ hx
      · simp only [catalogGet, hk', Bool.false_eq_true, if_false] at hx
        simpa only [catalogAppend, hk, if_true, catalogGet, hk', Bool.false_eq_true,
          if_false] using hx
    · by_cases hk' : (hd.1 == g') = true
      · simp only [catalogGet, hk', if_true] at hx
        simpa only [catalogAppend, hk, Bool.false_eq_true, if_false, catalogGet, hk',
          if_true] using hx
      · simp only [catalogGet, hk', Bool.false_eq_true, if_false] at hx
        simpa only [catalogAppend, hk, Bool.false_eq_true, if_false, catalogGet, hk',
          if_true] using ih hx

theorem mem_catalogGet_append_self (st : Catalog) (g : String) (e : CommandEntry) :
    e ∈ catalogGet (catalogAppend st g e) g := by
  induction st with
  | nil => simp [catalogAppend, catalogGet]
  | cons hd rest ih =>
    by_cases hk : (hd.1 == g) = true
    · simp only [catalogAppend, hk, if_true, catalogGet]
      exact List.mem_append_right _ (List.mem_singleton_self e)
    · simpa only [catalogAppend, hk, Bool.false_eq_true, if_false, catalogGet] using ih

theorem processHandler_cases (config : AstrBotConfig) (g mp : String) (st : Catalog)
    (h : StarHandlerMetadata) :
    processHandler config g mp st h = st
    ∨ ∃ e, _should_include_command config e.permission = true
        ∧ e ∉ catalogGet st g
        ∧ processHandler config g mp st h = catalogAppend st g e := by
  cases h1 : h.handler_module_path != mp with
  | true => exact Or.inl (by simp [processHandler, h1])
  | false =>
    cases hc : find_command_name h.event_filters with
    | none => exact Or.inl (by simp [processHandler, h1, hc])
    | some n =>
      cases hn : n == "" with
      | true => exact Or.inl (by simp [processHandler, h1, hc, hn])
      | false =>
        cases hs : _should_include_command config (_get_permission_level h) with
        | false => exact Or.inl (by simp [processHandler, h1, hc, hn, hs])
        | true =>
          by_cases hm : (⟨n, pyStrip (h.desc.getD ""), _get_permission_level h⟩ : CommandEntry)
              ∈ catalogGet st g
          · exact Or.inl (by simp [processHandler, h1, hc, hn, hs, hm])
          · exact Or.inr ⟨⟨n, pyStrip (h.desc.getD ""), _get_permission_level h⟩, hs, hm,
              by simp [processHandler, h1, hc, hn, hs, hm]⟩

theorem processHandler_run (config : AstrBotConfig) (g mp : String) (st : Catalog)
    (h : StarHandlerMetadata) (n : String)
    (hmp : (h.handler_module_path != mp) = false)
    (hcmd : find_command_name h.event_filters = some n)
    (hn : (n == "") = false)
    (hinc : _should_include_command config (_get_permission_level h) = true) :
    processHandler config g mp st h =
      if (⟨n, pyStrip (h.desc.getD ""), _get_permission_level h⟩ : CommandEntry)
          ∈ catalogGet st g
      then st
      else catalogAppend st g ⟨n, pyStrip (h.desc.getD ""), _get_permission_level h⟩ := by
  simp [processHandler, hmp, hcmd, hn, hinc]

theorem processStar_cases (config : AstrBotConfig) (dmap : List (String × String))
    (handlers : List StarHandlerMetadata) (st : Catalog) (star : StarMetadata) :
    processStar config dmap handlers st star = st
    ∨ processStar config dmap handlers st star =
        handlers.foldl
          (processHandler config (resolve_display_name dmap star) (star.module_path.getD ""))
          st := by
  unfold processStar
  dsimp only
  split
  · exact Or.inl rfl
  · split
    · exact Or.inl rfl
    · split
      · exact Or.inl rfl
      · exact Or.inr rfl

theorem processHandler_no_admin (config : AstrBotConfig)
    (hshow : config.show_all_cmds.getD false = false) (g mp : String) (st : Catalog)
    (h : StarHandlerMetadata)
    (hst : ∀ p ∈ st, ∀ e ∈ p.2, e.permission ≠ "admin") :
    ∀ p ∈ processHandler config g mp st h, ∀ e ∈ p.2, e.permission ≠ "admin" := by
  rcases processHandler_cases config g mp st h with heq | ⟨e, hinc, _, heq⟩
  · rw [heq]; exact hst
  · rw [heq]
    intro p hp x hx
    rcases entry_of_catalogAppend st g e p hp x hx with ⟨q, hq, hxq⟩ | rfl
    · exact hst q hq x hxq
    · unfold _should_include_command at hinc
      rw [hshow] at hinc
      simp only [Bool.false_eq_true, if_false, bne_iff_ne, ne_eq] at hinc
      exact hinc

theorem processStar_no_admin (config : AstrBotConfig)
    (hshow : config.show_all_cmds.getD false = false) (dmap : List (String × String))
    (handlers : List StarHandlerMetadata) (st : Catalog) (star : StarMetadata)
    (hst : ∀ p ∈ st, ∀ e ∈ p.2, e.permission ≠ "admin") :
    ∀ p ∈ processStar config dmap handlers st star, ∀ e ∈ p.2, e.permission ≠ "admin" := by
  rcases processStar_cases config dmap handlers st star with heq | heq <;> rw [heq]
  · exact hst
  · exact foldl_preserve
      (P := fun c => ∀ p ∈ c, ∀ e ∈ p.2, e.permission ≠ "admin")
      (fun c hd hc => processHandler_no_admin config hshow _ _ c hd hc) handlers st hst

/-- C1: with `show_all_cmds` false (including absent, its default), no entry of
the catalog returned by `get_all_commands` has permission "admin", for every
host state and handler set. -/
theorem c1_no_admin_by_default (config : AstrBotConfig) (fetch : FetchResult)
    (handlers : List StarHandlerMetadata)
    (hshow : config.show_all_cmds.getD false = false) :
    ∀ p ∈ get_all_commands config fetch handlers, ∀ e ∈ p.2, e.permission ≠ "admin" := by
  cases fetch with
  | err => intro p hp; simp [get_all_commands] at hp
  | ok stars =>
    unfold get_all_commands
    cases hA : (stars.filter fun star => star.activated).isEmpty with
    | true => simp [hA]
    | false =>
      simp only [hA, Bool.false_eq_true, if_false]
      exact foldl_preserve
        (P := fun c => ∀ p ∈ c, ∀ e ∈ p.2, e.permission ≠ "admin")
        (fun c s hc => processStar_no_admin config hshow _ handlers c s hc) _ []
        (by intro p hp; simp at hp)

/-- Witness for C1: with the default configuration, a host exposing one
everyone-tier command yields a catalog whose single entry is not admin. -/
theorem c1_no_admin_by_default_witness :
    (⟨"today", "d", "everyone"⟩ : CommandEntry).permission ≠ "admin" :=
  c1_no_admin_by_default ⟨none, none, DisplayNamesConfig.listVal []⟩
    (FetchResult.ok [⟨"weather", none, some "m", true, true⟩])
    [⟨"m", some "d", [FilterEntry.CommandFilter "today"]⟩] rfl
    ("weather", [⟨"today", "d", "everyone"⟩]) (by decide)
    ⟨"today", "d", "everyone"⟩ (by decide)

theorem processHandler_nodup (config : AstrBotConfig) (g mp : String) (st : Catalog)
    (h : StarHandlerMetadata) (hst : ∀ p ∈ st, p.2.Nodup) :
    ∀ p ∈ processHandler config g mp st h, p.2.Nodup := by
  rcases processHandler_cases config g mp st h with heq | ⟨e, _, hmem, heq⟩ <;> rw [heq]
  · exact hst
  · exact nodup_catalogAppend st g e hst hmem

theorem processStar_nodup (config : AstrBotConfig) (dmap : List (String × String))
    (handlers : List StarHandlerMetadata) (st : Catalog) (star : StarMetadata)
    (hst : ∀ p ∈ st, p.2.Nodup) :
    ∀ p ∈ processStar config dmap handlers st star, p.2.Nodup := by
  rcases processStar_cases config dmap handlers st star with heq | heq <;> rw [heq]
  · exact hst
  · exact foldl_preserve (P := fun c => ∀ p ∈ c, p.2.Nodup)
      (fun c hd hc => processHandler_nodup config _ _ c hd hc) handlers st hst

/-- C6: every display-name group of the catalog is duplicate-free — entries
are exactly their `(command, trimmed description, permission)` triples, so no
triple occurs twice in a group — and in the concrete scan below, where the
first and third handlers produce the same triple, the group keeps exactly one
copy, at the first occurrence's position. -/
theorem c6_group_dedup :
    (∀ (config : AstrBotConfig) (fetch : FetchResult)
      (handlers : List StarHandlerMetadata),
      ∀ p ∈ get_all_commands config fetch handlers, p.2.Nodup)
    ∧ get_all_commands ⟨none, none, DisplayNamesConfig.listVal []⟩
        (FetchResult.ok [⟨"pl", none, some "m", true, true⟩])
        [⟨"m", some "d", [FilterEntry.CommandFilter "a"]⟩,
         ⟨"m", some "e", [FilterEntry.CommandFilter "b"]⟩,
         ⟨"m", some " d ", [FilterEntry.CommandFilter "a", FilterEntry.otherFilter]⟩]
        = [("pl", [⟨"a", "d", "everyone"⟩, ⟨"b", "e", "everyone"⟩])] := by
  constructor
  · intro config fetch handlers
    cases fetch with
    | err => intro p hp; simp [get_all_commands] at hp
    | ok stars =>
      unfold get_all_commands
      cases hA : (stars.filter fun star => star.activated).isEmpty with
      | true => simp [hA]
      | false =>
        simp only [hA, Bool.false_eq_true, if_false]
        exact foldl_preserve (P := fun c => ∀ p ∈ c, p.2.Nodup)
          (fun c s hc => processStar_nodup config _ handlers c s hc) _ []
          (by intro p hp; simp at hp)
  · rfl

/-- Witness for C6: the group produced by the concrete duplicate-triple scan
is duplicate-free. -/
theorem c6_group_dedup_witness :
    ([⟨"a", "d", "everyone"⟩, ⟨"b", "e", "everyone"⟩] : List CommandEntry).Nodup :=
  c6_group_dedup.1 ⟨none, none, DisplayNamesConfig.listVal []⟩
    (FetchResult.ok [⟨"pl", none, some "m", true, true⟩])
    [⟨"m", some "d", [FilterEntry.CommandFilter "a"]⟩,
     ⟨"m", some "e", [FilterEntry.CommandFilter "b"]⟩,
     ⟨"m", some " d ", [FilterEntry.CommandFilter "a", FilterEntry.otherFilter]⟩]
    ("pl", [⟨"a", "d", "everyone"⟩, ⟨"b", "e", "everyone"⟩]) (by decide)

theorem get_all_filter_skip (config : AstrBotConfig) (handlers : List StarHandlerMetadata)
    (q : StarMetadata → Bool)
    (hid : ∀ st s, q s = false →
      processStar config (_get_plugin_display_name_map config) handlers st s = st)
    (stars : List StarMetadata) :
    get_all_commands config (FetchResult.ok stars) handlers =
      get_all_commands config (FetchResult.ok (stars.filter q)) handlers := by
  unfold get_all_commands
  dsimp only
  rw [List.filter_comm]
  have hfold : ∀ st : Catalog,
      (stars.filter (fun star => star.activated)).foldl
        (processStar config (_get_plugin_display_name_map config) handlers) st =
      ((stars.filter (fun star => star.activated)).filter q).foldl
        (processStar config (_get_plugin_display_name_map config) handlers) st :=
    fun st => foldl_filter_of_id _ q (fun c s hq => hid c s hq) _ st
  cases hAe : (stars.filter (fun star => star.activated)).isEmpty with
  | true =>
    have hnil : stars.filter (fun star => star.activated) = [] := List.isEmpty_iff.mp hAe
    rw [hnil]
    simp
  | false =>
    cases hAq : ((stars.filter (fun star => star.activated)).filter q).isEmpty with
    | false =>
      simp only [hAe, hAq, Bool.false_eq_true, if_false]
      exact hfold []
    | true =>
      have h2 : (stars.filter (fun star => star.activated)).filter q = [] :=
        List.isEmpty_iff.mp hAq
      simp only [hAe, hAq, Bool.false_eq_true, if_false, if_true]
      rw [hfold [], h2]
      rfl

theorem processStar_skip_excluded (config : AstrBotConfig) (dmap : List (String × String))
    (handlers : List StarHandlerMetadata) (st : Catalog) (s : StarMetadata)
    (h : (s.name == "astrbot" || s.name == "astrbot_plugin_help"
      || s.name == "astrbot-reminder") = true) :
    processStar config dmap handlers st s = st := by
  simp [processStar, h]

/-- C2: the plugins named "astrbot", "astrbot_plugin_help" and
"astrbot-reminder" contribute nothing to the catalog, for every host state,
handler set and configuration: removing them from the descriptor list leaves
`get_all_commands` unchanged. -/
theorem c2_excluded_plugins_contribute_nothing (config : AstrBotConfig)
    (stars : List StarMetadata) (handlers : List StarHandlerMetadata) :
    get_all_commands config (FetchResult.ok stars) handlers =
      get_all_commands config (FetchResult.ok (stars.filter (fun star =>
        !(star.name == "astrbot" || star.name == "astrbot_plugin_help"
          || star.name == "astrbot-reminder")))) handlers := by
  apply get_all_filter_skip
  intro st s hq
  apply processStar_skip_excluded
  cases hb : (s.name == "astrbot" || s.name == "astrbot_plugin_help"
      || s.name == "astrbot-reminder") with
  | true => rfl
  | false => rw [hb] at hq; simp at hq

theorem processStar_skip_builtin (config : AstrBotConfig) (dmap : List (String × String))
    (handlers : List StarHandlerMetadata) (st : Catalog) (s : StarMetadata)
    (hflag : config.show_builtin_cmds = some false)
    (hname : (s.name == "builtin_commands") = true) :
    processStar config dmap handlers st s = st := by
  have hn : s.name = "builtin_commands" := eq_of_beq hname
  have hx : (s.name == "astrbot" || s.name == "astrbot_plugin_help"
      || s.name == "astrbot-reminder") = false := by rw [hn]; decide
  simp [processStar, hx, hname, hflag]

theorem processHandler_congr_show_all (c1 c2 : AstrBotConfig)
    (h : c1.show_all_cmds = c2.show_all_cmds) (g mp : String) (st : Catalog)
    (hd : StarHandlerMetadata) :
    processHandler c1 g mp st hd = processHandler c2 g mp st hd := by
  unfold processHandler _should_include_command
  rw [h]

theorem processStar_congr_config (c1 c2 : AstrBotConfig)
    (hsa : c1.show_all_cmds = c2.show_all_cmds)
    (hsb : c1.show_builtin_cmds.getD true = c2.show_builtin_cmds.getD true)
    (dmap : List (String × String)) (handlers : List StarHandlerMetadata)
    (st : Catalog) (s : StarMetadata) :
    processStar c1 dmap handlers st s = processStar c2 dmap handlers st s := by
  unfold processStar
  dsimp only
  rw [hsb, foldl_ext (processHandler c1 (resolve_display_name dmap s) (s.module_path.getD ""))
    (processHandler c2 (resolve_display_name dmap s) (s.module_path.getD ""))
    (fun c hd => processHandler_congr_show_all c1 c2 hsa _ _ c hd) handlers st]

theorem get_all_congr_config (c1 c2 : AstrBotConfig)
    (hsa : c1.show_all_cmds = c2.show_all_cmds)
    (hsb : c1.show_builtin_cmds.getD true = c2.show_builtin_cmds.getD true)
    (hpd : c1.plugin_display_names = c2.plugin_display_names)
    (fetch : FetchResult) (handlers : List StarHandlerMetadata) :
    get_all_commands c1 fetch handlers = get_all_commands c2 fetch handlers := by
  cases fetch with
  | err => rfl
  | ok stars =>
    have hdm : _get_plugin_display_name_map c1 = _get_plugin_display_name_map c2 := by
      unfold _get_plugin_display_name_map
      rw [hpd]
    unfold get_all_commands
    dsimp only
    rw [hdm, foldl_ext (processStar c2 (_get_plugin_display_name_map c2) handlers)
      (processStar c2 (_get_plugin_display_name_map c2) handlers) (fun c s => rfl)]
    rw [foldl_ext (processStar c1 (_get_plugin_display_name_map c2) handlers)
      (processStar c2 (_get_plugin_display_name_map c2) handlers)
      (fun c s => processStar_congr_config c1 c2 hsa hsb _ handlers c s)]

/-- C9: when `show_builtin_cmds` is configured false, the plugin named
"builtin_commands" contributes no group and no entries (removing it leaves the
catalog unchanged); when the flag is absent, the builder behaves exactly as
with the flag set to its default true, so the plugin is processed normally. -/
theorem c9_builtin_visibility (config : AstrBotConfig) (stars : List StarMetadata)
    (handlers : List StarHandlerMetadata) (fetch : FetchResult) :
    (config.show_builtin_cmds = some false →
      get_all_commands config (FetchResult.ok stars) handlers =
        get_all_commands config (FetchResult.ok (stars.filter (fun star =>
          !(star.name == "builtin_commands")))) handlers)
    ∧ get_all_commands ⟨config.show_all_cmds, none, config.plugin_display_names⟩
        fetch handlers
      = get_all_commands ⟨config.show_all_cmds, some true, config.plugin_display_names⟩
        fetch handlers := by
  constructor
  · intro hflag
    apply get_all_filter_skip
    intro st s hq
    exact processStar_skip_builtin config _ handlers st s hflag (by simpa using hq)
  · exact get_all_congr_config _ _ rfl rfl rfl fetch handlers

/-- Witness for C9: an activated `builtin_commands` plugin with a valid
handler is absent from the catalog when `show_builtin_cmds` is false. -/
theorem c9_builtin_visibility_witness :
    get_all_commands ⟨none, some false, DisplayNamesConfig.listVal []⟩
      (FetchResult.ok [⟨"builtin_commands", none, some "m", true, true⟩])
      [⟨"m", some "d", [FilterEntry.CommandFilter "help"]⟩]
    = get_all_commands ⟨none, some false, DisplayNamesConfig.listVal []⟩
      (FetchResult.ok ([⟨"builtin_commands", none, some "m", true, true⟩].filter
        (fun star => !(star.name == "builtin_commands"))))
      [⟨"m", some "d", [FilterEntry.CommandFilter "help"]⟩] :=
  (c9_builtin_visibility ⟨none, some false, DisplayNamesConfig.listVal []⟩
    [⟨"builtin_commands", none, some "m", true, true⟩]
    [⟨"m", some "d", [FilterEntry.CommandFilter "help"]⟩] FetchResult.err).1 rfl

theorem find_command_name_skip (f : FilterEntry) (rest : List FilterEntry)
    (h : isCommandLikeEntry f = false) :
    find_command_name (f :: rest) = find_command_name rest := by
  cases f with
  | CommandFilter n => simp [isCommandLikeEntry] at h
  | CommandGroupFilter n => simp [isCommandLikeEntry] at h
  | PermissionTypeFilter pt => rfl
  | otherFilter => rfl

theorem find_command_name_first (pre post : List FilterEntry) (cf : FilterEntry) (n : String)
    (hpre : ∀ f ∈ pre, isCommandLikeEntry f = false)
    (hcf : cf = FilterEntry.CommandFilter n ∨ cf = FilterEntry.CommandGroupFilter n) :
    find_command_name (pre ++ cf :: post) = some n := by
  induction pre with
  | nil =>
    rcases hcf with rfl | rfl
    · rfl
    · rfl
  | cons f rest ih =>
    rw [List.cons_append,
      find_command_name_skip f _ (hpre f (List.mem_cons_self f rest))]
    exact ih (fun x hx => hpre x (List.mem_cons_of_mem f hx))

theorem processHandler_id_of_empty_name (config : AstrBotConfig) (g mp : String)
    (st : Catalog) (h : StarHandlerMetadata)
    (hcmd : find_command_name h.event_filters = some "") :
    processHandler config g mp st h = st := by
  simp [processHandler, hcmd]

theorem processStar_handlers_removed (config : AstrBotConfig)
    (dmap : List (String × String)) (l1 l2 : List StarHandlerMetadata)
    (h : StarHandlerMetadata) (st : Catalog) (s : StarMetadata)
    (hid : ∀ (g mp : String) (c : Catalog), processHandler config g mp c h = c) :
    processStar config dmap (l1 ++ h :: l2) st s = processStar config dmap (l1 ++ l2) st s := by
  unfold processStar
  dsimp only
  rw [foldl_remove_id (processHandler config (resolve_display_name dmap s)
    (s.module_path.getD "")) h (fun c => hid _ _ c) l1 l2 st]

/-- C10: a handler whose first `CommandFilter`/`CommandGroupFilter` carries an
empty name contributes no entry to the catalog, even when a later filter
(inside `post`) carries a non-empty name: removing such a handler from the
registry leaves `get_all_commands` unchanged. -/
theorem c10_empty_first_command_name (config : AstrBotConfig) (fetch : FetchResult)
    (l1 l2 : List StarHandlerMetadata) (h : StarHandlerMetadata)
    (pre post : List FilterEntry) (cf : FilterEntry)
    (hfs : h.event_filters = pre ++ cf :: post)
    (hpre : ∀ f ∈ pre, isCommandLikeEntry f = false)
    (hcf : cf = FilterEntry.CommandFilter "" ∨ cf = FilterEntry.CommandGroupFilter "") :
    get_all_commands config fetch (l1 ++ h :: l2) =
      get_all_commands config fetch (l1 ++ l2) := by
  have hcmd : find_command_name h.event_filters = some "" := by
    rw [hfs]
    exact find_command_name_first pre post cf "" hpre hcf
  have hid : ∀ (g mp : String) (c : Catalog), processHandler config g mp c h = c :=
    fun g mp c => processHandler_id_of_empty_name config g mp c h hcmd
  cases fetch with
  | err => rfl
  | ok stars =>
    unfold get_all_commands
    dsimp only
    rw [foldl_ext (processStar config (_get_plugin_display_name_map config) (l1 ++ h :: l2))
      (processStar config (_get_plugin_display_name_map config) (l1 ++ l2))
      (fun c s => processStar_handlers_removed config _ l1 l2 h c s hid)]

/-- Witness for C10: a handler whose first command filter has an empty name
and whose second carries "real" contributes nothing. -/
theorem c10_empty_first_command_name_witness :
    get_all_commands ⟨none, none, DisplayNamesConfig.listVal []⟩
      (FetchResult.ok [⟨"weather", none, some "m", true, true⟩])
      [⟨"m", some "d", [FilterEntry.CommandFilter "", FilterEntry.CommandFilter "real"]⟩]
    = get_all_commands ⟨none, none, DisplayNamesConfig.listVal []⟩
      (FetchResult.ok [⟨"weather", none, some "m", true, true⟩]) [] :=
  c10_empty_first_command_name ⟨none, none, DisplayNamesConfig.listVal []⟩
    (FetchResult.ok [⟨"weather", none, some "m", true, true⟩]) [] []
    ⟨"m", some "d", [FilterEntry.CommandFilter "", FilterEntry.CommandFilter "real"]⟩
    [] [FilterEntry.CommandFilter "real"] (FilterEntry.CommandFilter "") rfl
    (by intro f hf; simp at hf) (Or.inl rfl)

theorem mem_processHandler_mono (config : AstrBotConfig) (g' g mp : String)
    (st : Catalog) (h : StarHandlerMetadata) (x : CommandEntry)
    (hx : x ∈ catalogGet st g') : x ∈ catalogGet (processHandler config g mp st h) g' := by
  rcases processHandler_cases config g mp st h with heq | ⟨e, _, _, heq⟩ <;> rw [heq]
  · exact hx
  · exact mem_catalogGet_append_mono st g g' e x hx

theorem mem_processStar_mono (config : AstrBotConfig) (dmap : List (String × String))
    (handlers : List StarHandlerMetadata) (st : Catalog) (s : StarMetadata)
    (g' : String) (x : CommandEntry) (hx : x ∈ catalogGet st g') :
    x ∈ catalogGet (processStar config dmap handlers st s) g' := by
  rcases processStar_cases config dmap handlers st s with heq | heq <;> rw [heq]
  · exact hx
  · exact foldl_preserve (P := fun c => x ∈ catalogGet c g')
      (fun c hd hc => mem_processHandler_mono config g' _ _ c hd x hc) handlers st hx

theorem mem_processHandler_self (config : AstrBotConfig) (g mp : String) (st : Catalog)
    (h : StarHandlerMetadata) (n : String)
    (hmp : h.handler_module_path = mp)
    (hcmd : find_command_name h.event_filters = some n)
    (hn : (n == "") = false)
    (hinc : _should_include_command config (_get_permission_level h) = true) :
    (⟨n, pyStrip (h.desc.getD ""), _get_permission_level h⟩ : CommandEntry)
      ∈ catalogGet (processHandler config g mp st h) g := by
  have h1 : (h.handler_module_path != mp) = false := by rw [hmp]; simp
  rw [processHandler_run config g mp st h n h1 hcmd hn hinc]
  by_cases hm : (⟨n, pyStrip (h.desc.getD ""), _get_permission_level h⟩ : CommandEntry)
      ∈ catalogGet st g
  · rw [if_pos hm]; exact hm
  · rw [if_neg hm]; exact mem_catalogGet_append_self st g _

theorem mem_handlers_foldl (config : AstrBotConfig) (g mp : String) (st : Catalog)
    (handlers : List StarHandlerMetadata) (h : StarHandlerMetadata) (n : String)
    (hh : h ∈ handlers)
    (hmp : h.handler_module_path = mp)
    (hcmd : find_command_name h.event_filters = some n)
    (hn : (n == "") = false)
    (hinc : _should_include_command config (_get_permission_level h) = true) :
    (⟨n, pyStrip (h.desc.getD ""), _get_permission_level h⟩ : CommandEntry)
      ∈ catalogGet (handlers.foldl (processHandler config g mp) st) g := by
  obtain ⟨l1, l2, rfl⟩ := List.append_of_mem hh
  rw [List.foldl_append, List.foldl_cons]
  exact foldl_preserve
    (P := fun c => (⟨n, pyStrip (h.desc.getD ""), _get_permission_level h⟩ : CommandEntry)
      ∈ catalogGet c g)
    (fun c hd hc => mem_processHandler_mono config g g mp c hd _ hc) l2 _
    (mem_processHandler_self config g mp (l1.foldl (processHandler config g mp) st) h n
      hmp hcmd hn hinc)

theorem mem_processStar_self (config : AstrBotConfig) (dmap : List (String × String))
    (handlers : List StarHandlerMetadata) (st : Catalog) (s : StarMetadata)
    (h : StarHandlerMetadata) (n : String)
    (hex : (s.name == "astrbot" || s.name == "astrbot_plugin_help"
      || s.name == "astrbot-reminder") = false)
    (hb : (s.name == "builtin_commands" && !(config.show_builtin_cmds.getD true)) = false)
    (hv : (s.name == "" || s.module_path.getD "" == "" || !s.star_cls_is_star) = false)
    (hh : h ∈ handlers)
    (hmp : h.handler_module_path = s.module_path.getD "")
    (hcmd : find_command_name h.event_filters = some n)
    (hn : (n == "") = false)
    (hinc : _should_include_command config (_get_permission_level h) = true) :
    (⟨n, pyStrip (h.desc.getD ""), _get_permission_level h⟩ : CommandEntry)
      ∈ catalogGet (processStar config dmap handlers st s) (resolve_display_name dmap s) := by
  have hrun : processStar config dmap handlers st s =
      handlers.foldl
        (processHandler config (resolve_display_name dmap s) (s.module_path.getD "")) st := by
    unfold processStar
    dsimp only
    rw [hex, hb, hv]
    rfl
  rw [hrun]
  exact mem_handlers_foldl config (resolve_display_name dmap s) (s.module_path.getD "") st
    handlers h n hh hmp hcmd hn hinc

theorem should_include_of_show_all (config : AstrBotConfig) (pl : String)
    (hshow : config.show_all_cmds.getD false = true) :
    _should_include_command config pl = true := by
  simp [_should_include_command, hshow]

/-- C3 counterexample: with `show_all_cmds = true`, an admin-classified
handler carrying command "reload" is present in the handler data, yet the
catalog is empty because no plugin matches it — so not every admin command in
the handler data appears in the catalog. -/
theorem c3_all_admin_commands_counterexample :
    _get_permission_level ⟨"m", some "d",
      [FilterEntry.CommandFilter "reload",
       FilterEntry.PermissionTypeFilter PermissionType.ADMIN]⟩ = "admin"
    ∧ find_command_name [FilterEntry.CommandFilter "reload",
        FilterEntry.PermissionTypeFilter PermissionType.ADMIN] = some "reload"
    ∧ get_all_commands ⟨some true, none, DisplayNamesConfig.listVal []⟩
        (FetchResult.ok [])
        [⟨"m", some "d",
          [FilterEntry.CommandFilter "reload",
           FilterEntry.PermissionTypeFilter PermissionType.ADMIN]⟩] = [] :=
  ⟨rfl, rfl, rfl⟩

/-- C3 (amended): with `show_all_cmds = true`, every command of a handler that
belongs to a processed plugin — one that is activated, not in the exclusion
set, not a hidden `builtin_commands`, with valid metadata, whose module path
equals the handler's — and whose extracted command name is non-empty appears
in the catalog, in the group keyed by that plugin's display name; in
particular this covers every admin-classified handler. -/
theorem c3_admin_commands_appear_when_show_all (config : AstrBotConfig)
    (stars : List StarMetadata) (handlers : List StarHandlerMetadata)
    (star : StarMetadata) (h : StarHandlerMetadata) (n : String)
    (hshow : config.show_all_cmds.getD false = true)
    (hstar : star ∈ stars) (hact : star.activated = true)
    (hex : (star.name == "astrbot" || star.name == "astrbot_plugin_help"
      || star.name == "astrbot-reminder") = false)
    (hb : (star.name == "builtin_commands"
      && !(config.show_builtin_cmds.getD true)) = false)
    (hv : (star.name == "" || star.module_path.getD "" == ""
      || !star.star_cls_is_star) = false)
    (hh : h ∈ handlers)
    (hmp : h.handler_module_path = star.module_path.getD "")
    (hcmd : find_command_name h.event_filters = some n)
    (hn : (n == "") = false) :
    (⟨n, pyStrip (h.desc.getD ""), _get_permission_level h⟩ : CommandEntry)
      ∈ catalogGet (get_all_commands config (FetchResult.ok stars) handlers)
        (resolve_display_name (_get_plugin_display_name_map config) star) := by
  have hinc : _should_include_command config (_get_permission_level h) = true :=
    should_include_of_show_all config _ hshow
  have hstarA : star ∈ stars.filter (fun star => star.activated) :=
    List.mem_filter.mpr ⟨hstar, by simp [hact]⟩
  obtain ⟨s1, s2, hsplit⟩ := List.append_of_mem hstarA
  have hAe : (stars.filter (fun star => star.activated)).isEmpty = false := by
    cases hA : (stars.filter (fun star => star.activated)).isEmpty with
    | false => rfl
    | true =>
      rw [List.isEmpty_iff.mp hA] at hstarA
      exact absurd hstarA (List.not_mem_nil star)
  unfold get_all_commands
  dsimp only
  rw [hAe]
  simp only [Bool.false_eq_true, if_false]
  rw [hsplit, List.foldl_append, List.foldl_cons]
  exact foldl_preserve
    (P := fun c => (⟨n, pyStrip (h.desc.getD ""), _get_permission_level h⟩ : CommandEntry)
      ∈ catalogGet c (resolve_display_name (_get_plugin_display_name_map config) star))
    (fun c s hc => mem_processStar_mono config _ handlers c s _ _ hc) s2 _
    (mem_processStar_self config (_get_plugin_display_name_map config) handlers _ star h n
      hex hb hv hh hmp hcmd hn hinc)

/-- Witness for the amended C3: with `show_all_cmds = true`, the admin command
"reload" of the plugin "weather" appears in its group. -/
theorem c3_admin_commands_appear_when_show_all_witness :
    (⟨"reload", "d", "admin"⟩ : CommandEntry)
      ∈ catalogGet (get_all_commands ⟨some true, none, DisplayNamesConfig.listVal []⟩
          (FetchResult.ok [⟨"weather", none, some "m", true, true⟩])
          [⟨"m", some "d",
            [FilterEntry.CommandFilter "reload",
             FilterEntry.PermissionTypeFilter PermissionType.ADMIN]⟩]) "weather" := by
  have h := c3_admin_commands_appear_when_show_all
    ⟨some true, none, DisplayNamesConfig.listVal []⟩
    [⟨"weather", none, some "m", true, true⟩]
    [⟨"m", some "d",
      [FilterEntry.CommandFilter "reload",
       FilterEntry.PermissionTypeFilter PermissionType.ADMIN]⟩]
    ⟨"weather", none, some "m", true, true⟩
    ⟨"m", some "d",
      [FilterEntry.CommandFilter "reload",
       FilterEntry.PermissionTypeFilter PermissionType.ADMIN]⟩
    "reload" rfl (by decide) rfl (by decide) (by decide) (by decide) (by decide) rfl rfl
  simpa using h
